import Mathlib

/-!
Verification of the context-graph backend core against its specification.

This file gives a shallow embedding, in Lean, of the parts of the repository
that the specification's claims are about:

- the read-only Cypher execution guard
  (src/backend/app/context_graph_client.py, execute_cypher);
- the derived-artifact lifecycle manager
  (src/backend/app/gds_client.py, _ensure_decision_graph_exists and
  write_community_ids);
- the causal-chain tracer and the causal-edge write path
  (src/backend/app/context_graph_client.py, get_causal_chain and
  record_decision; src/backend/scripts/generate_sample_data.py,
  create_causal_chains);
- the decision repository write path
  (src/backend/app/context_graph_client.py, record_decision);
- the hybrid precedent retriever
  (src/backend/app/vector_client.py, find_precedents_hybrid and
  search_decisions_semantic).

Modelling conventions: the Neo4j store is modelled by explicit state records;
similarity scores and score weights are rationals; the vector similarity
function of the engine (cosine) is kept abstract as a field of the store,
since it belongs to the external graph-store collaborator.  Query results are
lists in the order the modelled Cypher produces them; ORDER BY is a stable
insertion sort on the ordering key that the query names (and on nothing else).
Store failures are modelled where a claim depends on them: a vector-index
query with a null query vector raises, so the hybrid retrieval has an
Except-valued run model refining the total row model (they agree whenever
every Decision carries a structural embedding).
-/

unseal Rat.add Rat.mul Rat.inv Rat.sub

namespace CypherGuard

/-- Checks whether the character list starting at the head of the second
argument begins with the first argument. -/
def prefixMatch : List Char → List Char → Bool
  | [], _ => true
  | _ :: _, [] => false
  | c :: cs, d :: ds => c == d && prefixMatch cs ds

/-- Substring containment on character lists, modelling the Python
membership test on strings used by execute_cypher. -/
def containsSub (needle : List Char) : List Char → Bool
  | [] => prefixMatch needle []
  | d :: ds => prefixMatch needle (d :: ds) || containsSub needle ds

/-- The keyword deny-list of execute_cypher, verbatim from the source. -/
def mutationKeywords : List String := ["CREATE", "MERGE", "DELETE", "SET", "REMOVE", "DROP"]

/-- Removes leading whitespace characters from a character list. -/
def dropLeadingWs : List Char → List Char
  | [] => []
  | c :: cs => if c.isWhitespace then dropLeadingWs cs else c :: cs

/-- Removes leading and trailing whitespace, the Python strip. -/
def trimChars (l : List Char) : List Char :=
  ((dropLeadingWs ((dropLeadingWs l).reverse)).reverse)

/-- Model of the guard condition of execute_cypher: the query text is
uppercased character by character and stripped, then each keyword is tested
for substring membership anywhere in the text. -/
def containsKeyword (cypher : String) : Bool :=
  let cypherUpper := trimChars (cypher.data.map Char.toUpper)
  mutationKeywords.any (fun k => containsSub k.data cypherUpper)

/-- Model of ContextGraphClient.execute_cypher.  The store is represented by
the oracle runQuery, so that a rejected query provably never reaches the
store: on the rejecting branch the result is built without applying the
oracle.  On the accepting branch the session executes the query. -/
def execute_cypher {ρ : Type} (runQuery : String → List ρ) (cypher : String) :
    Except String (List ρ) :=
  if containsKeyword cypher then .error "Only read operations are allowed"
  else .ok (runQuery cypher)

end CypherGuard

namespace GDS

/-- Abstraction of the persisted and in-memory state that GDSClient reads and
writes while managing the decision-graph projection and the community
pipeline.  Individual nodes are not needed by the claims; what matters is
whether at least one node of the relevant kind exists, which is exactly what
the source queries test (count comparisons against zero). -/
structure GState where
  /-- at least one Decision node exists in the database -/
  hasDecision : Bool
  /-- some Decision node carries a persisted fastrp_embedding property,
  the condition tested by _check_embeddings_exist -/
  decisionEmb : Bool
  /-- the decision-graph projection exists in the catalog -/
  projExists : Bool
  /-- the current projection was loaded or mutated with embeddings -/
  projWithEmb : Bool
  /-- at least one Community node exists, the condition tested by the
  force=False early-return check of write_community_ids -/
  communityExists : Bool
  /-- some Decision node carries a community_id property -/
  labeled : Bool
deriving DecidableEq, Repr

/-- Model of GDSClient.create_decision_graph_projection: drop the projection
if present, then create it, loading persisted embeddings when asked to. -/
def create_decision_graph_projection (s : GState) (include_embeddings : Bool) : GState :=
  { s with projExists := true, projWithEmb := include_embeddings }

/-- Model of GDSClient.generate_fastrp_embeddings: gds.fastRP.mutate adds the
embedding property to the in-memory projection only. -/
def generate_fastrp_embeddings (s : GState) : GState :=
  { s with projWithEmb := true }

/-- Model of GDSClient.write_fastrp_embeddings: the mutated projection
properties are written back to database nodes; a Decision node receives a
persisted embedding exactly when a Decision node exists to receive one. -/
def write_fastrp_embeddings (s : GState) : GState :=
  { s with decisionEmb := s.decisionEmb || s.hasDecision }

/-- Model of GDSClient._ensure_decision_graph_exists.  The returned number
counts FastRP embedding computations performed by the call. -/
def ensure_decision_graph_exists (s : GState) : GState × Nat :=
  let embeddingsExist := s.decisionEmb
  let graphExists := s.projExists
  if graphExists && embeddingsExist then (s, 0)
  else if embeddingsExist then (create_decision_graph_projection s true, 0)
  else
    let s1 := create_decision_graph_projection s false
    let s2 := generate_fastrp_embeddings s1
    let s3 := write_fastrp_embeddings s2
    (create_decision_graph_projection s3 true, 1)

/-- Status component of the dictionary returned by write_community_ids: the
early return carries the string already_computed, the full run returns the
Louvain summary (no status key). -/
inductive CommStatus
  | alreadyComputed
  | recomputed
deriving DecidableEq, Repr

/-- Instrumented summary of one write_community_ids call: which pipeline
steps the call executed, and how many Louvain clustering runs it made. -/
structure CommResult where
  status : CommStatus
  louvainRuns : Nat
  droppedProjection : Bool
  wroteCommunityIds : Bool
  materializedCommunities : Bool
  linkedDecisions : Bool
deriving DecidableEq, Repr

/-- Model of GDSClient.write_community_ids.  Follows the source step by step:
ensure the projection, then either return early (force false and Community
nodes present) or drop the projection, re-ensure it, run Louvain, write
community ids onto Decision nodes, merge Community nodes for the distinct
written ids, link Decisions to their Community and aggregate.  A Decision
receives a community id exactly when a Decision exists; a Community node is
merged exactly when some Decision carries a community id. -/
def write_community_ids (s : GState) (force : Bool) : GState × CommResult :=
  let s := (ensure_decision_graph_exists s).1
  if !force && s.communityExists then
    (s, ⟨.alreadyComputed, 0, false, false, false, false⟩)
  else
    let s := { s with projExists := false, projWithEmb := false }
    let s := (ensure_decision_graph_exists s).1
    let s := { s with labeled := s.labeled || s.hasDecision }
    let s := { s with communityExists := s.communityExists || s.labeled }
    (s, ⟨.recomputed, 1, true, true, true, true⟩)

end GDS

namespace CausalGraph

/-- Relationship types appearing on edges between Decision nodes. -/
inductive RelType
  | caused
  | influenced
  | precedentFor
  | followedPrecedent
deriving DecidableEq, Repr

/-- A Decision node as seen by the causal-chain tracer: its id and its
decision_timestamp (other properties play no part in the claims). -/
structure CNode where
  id : Nat
  decision_timestamp : Int
deriving DecidableEq, Repr

/-- A directed edge between Decision nodes. -/
structure CEdge where
  src : Nat
  dst : Nat
  rel : RelType
deriving DecidableEq, Repr

/-- The Decision subgraph held by the store. -/
structure CGraph where
  nodes : List CNode
  edges : List CEdge
deriving DecidableEq, Repr

/-- Timestamp lookup by node id, none when no node carries the id. -/
def tsOf (g : CGraph) (i : Nat) : Option Int :=
  (g.nodes.find? (fun n => n.id == i)).map (fun n => n.decision_timestamp)

/-- Whether a node with the given id exists. -/
def nodeExists (g : CGraph) (i : Nat) : Bool :=
  (g.nodes.find? (fun n => n.id == i)).isSome

/-- The relationship types the tracer walks: the CAUSED|INFLUENCED pattern
of get_causal_chain. -/
def traversable : RelType → Bool
  | .caused => true
  | .influenced => true
  | _ => false

/-- The causal relationship types named by invariant 1 of the
specification: CAUSED, INFLUENCED and PRECEDENT_FOR. -/
def causalType : RelType → Bool
  | .caused => true
  | .influenced => true
  | .precedentFor => true
  | .followedPrecedent => false

/-- One edge respects the timestamp invariant: either it is not causal, or
both endpoints exist and the source timestamp is strictly below the
destination timestamp. -/
def edgeOk (g : CGraph) (e : CEdge) : Bool :=
  !(causalType e.rel) ||
    (match tsOf g e.src, tsOf g e.dst with
     | some t1, some t2 => decide (t1 < t2)
     | _, _ => false)

/-- The timestamp invariant, stated over a concrete graph: every causal edge
goes from an earlier Decision to a strictly later one. -/
def causalOrdered (g : CGraph) : Bool :=
  g.edges.all (edgeOk g)

/-- Enumerates each element of a list together with the remaining elements,
used to model the relationship-uniqueness of Cypher path matching (a
variable-length pattern never uses the same relationship twice). -/
def pickOne {α : Type} : List α → List (α × List α)
  | [] => []
  | x :: xs => (x, xs) :: (pickOne xs).map (fun p => (p.1, x :: p.2))

/-- All trails of traversable edges of length 1 up to the depth bound that
end at the target node, one result row per path, as the variable-length
pattern of the causes query produces them.  Each row is the id of the start
node of the path together with the path length. -/
def trailsInto (edges : List CEdge) (target : Nat) : Nat → List (Nat × Nat)
  | 0 => []
  | depth + 1 =>
    (pickOne edges).flatMap (fun p =>
      if p.1.dst = target ∧ traversable p.1.rel = true then
        (p.1.src, 1) :: (trailsInto p.2 p.1.src depth).map (fun q => (q.1, q.2 + 1))
      else [])

/-- All trails of traversable edges of length 1 up to the depth bound that
start at the source node, one result row per path: the effects query. -/
def trailsFrom (edges : List CEdge) (source : Nat) : Nat → List (Nat × Nat)
  | 0 => []
  | depth + 1 =>
    (pickOne edges).flatMap (fun p =>
      if p.1.src = source ∧ traversable p.1.rel = true then
        (p.1.dst, 1) :: (trailsFrom p.2 p.1.dst depth).map (fun q => (q.1, q.2 + 1))
      else [])

/-- Ordering key of the two traversal queries: ascending hop distance. -/
def byDistance (a b : Nat × Nat) : Prop := a.2 ≤ b.2

instance : DecidableRel byDistance := fun a b => inferInstanceAs (Decidable (a.2 ≤ b.2))

instance : IsTotal (Nat × Nat) byDistance := ⟨fun a b => Nat.le_total a.2 b.2⟩

instance : IsTrans (Nat × Nat) byDistance := ⟨fun _ _ _ h1 h2 => Nat.le_trans h1 h2⟩

/-- The dictionary returned by get_causal_chain. -/
structure ChainResult where
  decision_id : Nat
  causes : List (Nat × Nat)
  effects : List (Nat × Nat)
  depth : Nat
deriving DecidableEq, Repr

/-- Model of ContextGraphClient.get_causal_chain.  Each direction runs its
traversal query when the direction argument asks for it; each result row
carries the related Decision id and its hop distance, ordered by ascending
distance.  The anchor Decision must exist for the MATCH to produce rows. -/
def get_causal_chain (g : CGraph) (decision_id : Nat) (direction : String) (depth : Nat) :
    ChainResult :=
  let causes :=
    if nodeExists g decision_id && (direction == "both" || direction == "causes") then
      List.insertionSort byDistance (trailsInto g.edges decision_id depth)
    else []
  let effects :=
    if nodeExists g decision_id && (direction == "both" || direction == "effects") then
      List.insertionSort byDistance (trailsFrom g.edges decision_id depth)
    else []
  ⟨decision_id, causes, effects, depth⟩

/-- The write operations of the repository that touch Decision nodes or the
edges between them: record_decision (which creates the Decision node and its
best-effort FOLLOWED_PRECEDENT links) and the guarded causal-edge creation
of create_causal_chains. -/
inductive WriteOp
  | record (id : Nat) (decision_timestamp : Int) (precedent_ids : List Nat)
  | causalLink (d1 d2 : Nat) (rel : RelType)

/-- Applies one write operation.  For record, the Decision node is created
and a FOLLOWED_PRECEDENT edge is added for each precedent id that matches an
existing node.  For causalLink, create_causal_chains matches both endpoints
and merges the edge only under the guard that the source timestamp is
strictly below the destination timestamp; the generator only ever creates
the three causal types. -/
def applyOp (g : CGraph) : WriteOp → CGraph
  | .record i ts precs =>
    { nodes := g.nodes ++ [⟨i, ts⟩]
      edges := g.edges ++
        ((precs.filter (fun p => nodeExists g p)).map (fun p => ⟨i, p, .followedPrecedent⟩)) }
  | .causalLink d1 d2 rel =>
    if causalType rel then
      match tsOf g d1, tsOf g d2 with
      | some t1, some t2 =>
        if t1 < t2 then { g with edges := g.edges ++ [⟨d1, d2, rel⟩] } else g
      | _, _ => g
    else g

/-- The store reached from an empty database by a sequence of writes. -/
def runOps (ops : List WriteOp) : CGraph :=
  ops.foldl applyOp ⟨[], []⟩

end CausalGraph

namespace DecisionRepo

/-- Node labels relevant to the association edges of record_decision. -/
inductive Label
  | person
  | account
  | transaction
  | decision
deriving DecidableEq, Repr

/-- A labelled node.  The scalar properties of a Decision (reasoning text,
status, confidence and so on) play no part in the claims about the write
path and are elided. -/
structure RNode where
  id : Nat
  label : Label
deriving DecidableEq, Repr

/-- Relationship kinds created by record_decision. -/
inductive RelKind
  | about
  | followedPrecedent
deriving DecidableEq, Repr

/-- A directed edge of the repository store. -/
structure REdge where
  src : Nat
  dst : Nat
  rel : RelKind
deriving DecidableEq, Repr

/-- The repository store. -/
structure RStore where
  nodes : List RNode
  edges : List REdge
deriving DecidableEq, Repr

/-- Existence check used by the MATCH clauses of the link queries. -/
def hasNode (st : RStore) (i : Nat) (lab : Label) : Bool :=
  st.nodes.any (fun n => n.id == i && n.label == lab)

/-- Best-effort association link of record_decision: the edge is created
when the optional target id is given and a node with that id and label
exists, and simply omitted otherwise. -/
def linkEdges (st1 : RStore) (decision_id : Nat) (target : Option Nat) (lab : Label)
    (rel : RelKind) : List REdge :=
  match target with
  | some t => if hasNode st1 t lab then [⟨decision_id, t, rel⟩] else []
  | none => []

/-- Best-effort precedent links of record_decision: one FOLLOWED_PRECEDENT
edge for each precedent id that matches an existing Decision node. -/
def precedentLinkEdges (st1 : RStore) (decision_id : Nat) (precedent_ids : List Nat) :
    List REdge :=
  (precedent_ids.filter (fun p => hasNode st1 p .decision)).map
    (fun p => (⟨decision_id, p, .followedPrecedent⟩ : REdge))

/-- Model of ContextGraphClient.record_decision.  The Decision node is
created first; afterwards each association edge is created by a separate
query that matches the target by id and label, so an edge appears exactly
when its target exists at link time (the store already holds the new
Decision node then), and a missing target simply produces no edge.  The
generated decision id is returned unconditionally. -/
def record_decision (st : RStore) (decision_id : Nat)
    (customer_id account_id transaction_id : Option Nat) (precedent_ids : List Nat) :
    RStore × Nat :=
  let st1 : RStore := { st with nodes := st.nodes ++ [⟨decision_id, .decision⟩] }
  ({ st1 with
      edges := st1.edges ++ linkEdges st1 decision_id customer_id .person .about
        ++ linkEdges st1 decision_id account_id .account .about
        ++ linkEdges st1 decision_id transaction_id .transaction .about
        ++ precedentLinkEdges st1 decision_id precedent_ids },
    decision_id)

end DecisionRepo

namespace HybridRetriever

/-- A Decision node as seen by the vector client: its id, category and
timestamp together with the two optional embedding properties.  A node
appears in a vector index exactly when the indexed property is present. -/
structure VDecision where
  id : Nat
  category : Option String
  decision_timestamp : Int
  reasoning_embedding : Option (List Rat)
  fastrp_embedding : Option (List Rat)
deriving DecidableEq, Repr

/-- The vector store: the Decision nodes and the similarity function of the
vector indexes.  Both indexes of the source are declared with cosine
similarity; the function is kept abstract here because nearest-neighbour
scoring belongs to the external graph-store collaborator. -/
structure VStore where
  decisions : List VDecision
  sim : List Rat → List Rat → Rat

/-- Descending order on scored rows, the ORDER BY score DESC of the
queries; no secondary ordering key exists in the source. -/
def scoredDesc (a b : VDecision × Rat) : Prop := b.2 ≤ a.2

instance : DecidableRel scoredDesc := fun a b => inferInstanceAs (Decidable (b.2 ≤ a.2))

instance : IsTotal (VDecision × Rat) scoredDesc := ⟨fun a b => le_total b.2 a.2⟩

instance : IsTrans (VDecision × Rat) scoredDesc := ⟨fun _ _ _ h1 h2 => le_trans h2 h1⟩

/-- Model of db.index.vector.queryNodes over decision_reasoning_idx: the
k nearest Decision nodes that carry a reasoning_embedding, ordered by
descending similarity to the query vector. -/
def queryReasoningIdx (s : VStore) (k : Nat) (q : List Rat) : List (VDecision × Rat) :=
  let scored := s.decisions.filterMap (fun d =>
    (d.reasoning_embedding).map (fun e => (d, s.sim q e)))
  (List.insertionSort scoredDesc scored).take k

/-- Row semantics of db.index.vector.queryNodes over decision_fastrp_idx for
a present query vector: the k nearest Decision nodes carrying a
fastrp_embedding, by descending similarity.  The query vector is an optional
node property in find_precedents_hybrid; this total function gives the none
case an empty placeholder value so that the row-shape theorems can quantify
over all stores, while the store's actual behaviour on a null query vector
(an error, no rows at all) is modelled by queryFastrpIdxChecked below — the
two agree whenever the vector is present. -/
def queryFastrpIdx (s : VStore) (k : Nat) : Option (List Rat) → List (VDecision × Rat)
  | none => []
  | some qv =>
    let scored := s.decisions.filterMap (fun d =>
      (d.fastrp_embedding).map (fun e => (d, s.sim qv e)))
    (List.insertionSort scoredDesc scored).take k

/-- The store error raised by db.index.vector.queryNodes when the query
vector argument is null, as happens when a seed Decision has no
fastrp_embedding property. -/
def nullVectorError : String := "db.index.vector.queryNodes: query vector must not be null"

/-- Model of db.index.vector.queryNodes over decision_fastrp_idx including
the store's failure path: a null query vector raises an error instead of
yielding rows; a present query vector yields the rows of queryFastrpIdx. -/
def queryFastrpIdxChecked (s : VStore) (k : Nat) :
    Option (List Rat) → Except String (List (VDecision × Rat))
  | none => .error nullVectorError
  | some qv => .ok (queryFastrpIdx s k (some qv))

/-- The optional category filter of the two search queries. -/
def categoryOk (cat : Option String) (d : VDecision) : Bool :=
  match cat with
  | none => true
  | some c => d.category == some c

/-- Model of VectorClient.search_decisions_semantic: the top limit semantic
matches, filtered by category, ordered by descending score. -/
def search_decisions_semantic (s : VStore) (query_embedding : List Rat)
    (cat : Option String) (limit : Nat) : List (VDecision × Rat) :=
  (queryReasoningIdx s limit query_embedding).filter (fun r => categoryOk cat r.1)

/-- The first stage of find_precedents_hybrid: the top limit * 2 semantic
matches with their scores, filtered by label and category. -/
def semanticRows (s : VStore) (query_embedding : List Rat) (cat : Option String)
    (limit : Nat) : List (VDecision × Rat) :=
  (queryReasoningIdx s (limit * 2) query_embedding).filter (fun r => categoryOk cat r.1)

/-- One row of the second stage of find_precedents_hybrid: a structural
match of one semantic seed, carrying the semantic score of the seed, the
structural score of the match, and their weighted combination. -/
structure HybridRow where
  structural_match : VDecision
  semantic_score : Rat
  structural_score : Rat
  combined_score : Rat
deriving DecidableEq, Repr

/-- The second stage of find_precedents_hybrid: for each semantic seed, the
top limit structural neighbours of the seed (queried with the seed's own
fastrp_embedding), excluding the seed itself; each row combines the seed's
semantic score with the neighbour's structural score using the two
weights. -/
def hybridRows (s : VStore) (query_embedding : List Rat) (cat : Option String)
    (semantic_weight structural_weight : Rat) (limit : Nat) : List HybridRow :=
  (semanticRows s query_embedding cat limit).flatMap (fun sm =>
    (queryFastrpIdx s limit sm.1.fastrp_embedding).filterMap (fun st =>
      if st.1 = sm.1 then none
      else
        some { structural_match := st.1
               semantic_score := sm.2
               structural_score := st.2
               combined_score := sm.2 * semantic_weight + st.2 * structural_weight }))

/-- The maximum of a head element and a list, the aggregate max of the
grouping stage. -/
def maxRat (x : Rat) (l : List Rat) : Rat := l.foldl max x

/-- One aggregated candidate of find_precedents_hybrid after the DISTINCT
grouping by structural match. -/
structure GroupedRow where
  decision : VDecision
  score : Rat
  best_semantic : Rat
  best_structural : Rat
deriving DecidableEq, Repr

/-- The grouping stage of find_precedents_hybrid: rows are grouped by the
structural match (node identity), keeping the maxima of the combined,
semantic and structural scores of each group. -/
def groupedRows (rows : List HybridRow) : List GroupedRow :=
  ((rows.map (fun r => r.structural_match)).eraseDup).filterMap (fun d =>
    match rows.filter (fun r => r.structural_match = d) with
    | [] => none
    | r :: rs =>
      some { decision := d
             score := maxRat r.combined_score (rs.map (fun x => x.combined_score))
             best_semantic := maxRat r.semantic_score (rs.map (fun x => x.semantic_score))
             best_structural := maxRat r.structural_score (rs.map (fun x => x.structural_score)) })

/-- Descending order on aggregated candidates, the final ORDER BY score
DESC; the source query has no secondary ordering key. -/
def groupedDesc (a b : GroupedRow) : Prop := b.score ≤ a.score

instance : DecidableRel groupedDesc := fun a b => inferInstanceAs (Decidable (b.score ≤ a.score))

instance : IsTotal GroupedRow groupedDesc := ⟨fun a b => le_total b.score a.score⟩

instance : IsTrans GroupedRow groupedDesc := ⟨fun _ _ _ h1 h2 => le_trans h2 h1⟩

/-- Model of VectorClient.find_precedents_hybrid: semantic stage, structural
expansion of each seed, grouping with maxima, descending sort on the
combined score and truncation to the limit.  The query embedding is the
vector the embedding provider returns for the scenario text. -/
def find_precedents_hybrid (s : VStore) (query_embedding : List Rat) (cat : Option String)
    (semantic_weight structural_weight : Rat) (limit : Nat) : List GroupedRow :=
  (List.insertionSort groupedDesc
    (groupedRows (hybridRows s query_embedding cat semantic_weight structural_weight limit))).take
    limit

/-- The structural expansion of the semantic seeds in execution order, with
the store's failure path: the structural-index CALL of the first seed whose
fastrp_embedding is null raises, aborting the query; otherwise each seed
contributes its expansion rows exactly as in hybridRows. -/
def expandSeeds (s : VStore) (semantic_weight structural_weight : Rat) (limit : Nat) :
    List (VDecision × Rat) → Except String (List HybridRow)
  | [] => .ok []
  | sm :: rest =>
    match queryFastrpIdxChecked s limit sm.1.fastrp_embedding with
    | .error e => .error e
    | .ok sts =>
      match expandSeeds s semantic_weight structural_weight limit rest with
      | .error e => .error e
      | .ok tail =>
        .ok ((sts.filterMap (fun st =>
          if st.1 = sm.1 then none
          else
            some { structural_match := st.1
                   semantic_score := sm.2
                   structural_score := st.2
                   combined_score := sm.2 * semantic_weight + st.2 * structural_weight })) ++
          tail)

/-- The second stage of find_precedents_hybrid with the store's failure
path. -/
def hybridRowsChecked (s : VStore) (query_embedding : List Rat) (cat : Option String)
    (semantic_weight structural_weight : Rat) (limit : Nat) :
    Except String (List HybridRow) :=
  expandSeeds s semantic_weight structural_weight limit
    (semanticRows s query_embedding cat limit)

/-- Model of one run of VectorClient.find_precedents_hybrid against the
store, including the store's failure path: if any semantic seed lacks a
structural embedding, the structural-index CALL receives a null query
vector and the whole query raises a store error; otherwise the run returns
the rows of find_precedents_hybrid. -/
def find_precedents_hybrid_run (s : VStore) (query_embedding : List Rat) (cat : Option String)
    (semantic_weight structural_weight : Rat) (limit : Nat) :
    Except String (List GroupedRow) :=
  match hybridRowsChecked s query_embedding cat semantic_weight structural_weight limit with
  | .error e => .error e
  | .ok rows => .ok ((List.insertionSort groupedDesc (groupedRows rows)).take limit)

/-- Ranking order asserted by the specification: descending combined score
with ties broken by the most recent decision timestamp first. -/
def specRanked (a b : GroupedRow) : Prop :=
  b.score < a.score ∨
    (b.score = a.score ∧ b.decision.decision_timestamp ≤ a.decision.decision_timestamp)

instance : DecidableRel specRanked := fun a b =>
  inferInstanceAs (Decidable (b.score < a.score ∨
    (b.score = a.score ∧ b.decision.decision_timestamp ≤ a.decision.decision_timestamp)))

/-- Ranking order of the specification on merged scored pairs. -/
def specPairRanked (a b : VDecision × Rat) : Prop :=
  b.2 < a.2 ∨ (b.2 = a.2 ∧ b.1.decision_timestamp ≤ a.1.decision_timestamp)

instance : DecidableRel specPairRanked := fun a b =>
  inferInstanceAs (Decidable (b.2 < a.2 ∨
    (b.2 = a.2 ∧ b.1.decision_timestamp ≤ a.1.decision_timestamp)))

/-- Score of a decision within a scored set, 0 when absent: the sub-score
accumulation described by the specification. -/
def lookupScore (l : List (VDecision × Rat)) (d : VDecision) : Rat :=
  match l.find? (fun p => p.1 == d) with
  | some p => p.2
  | none => 0

/-- Modelled from the spec: the hybrid merge algorithm as the specification
words it (section 4.2, steps 2 to 6), for comparison with the source
function find_precedents_hybrid.  The semantic top 2K set and the structural
top K set (queried with the first semantic candidate's structural embedding)
are merged by Decision identity; a candidate absent from a set contributes a
0 sub-score there; the combined score weighs the candidate's own sub-scores;
the merged list is sorted by descending combined score with ties broken by
the most recent timestamp and truncated to the limit. -/
def spec_hybrid_merge (s : VStore) (query_embedding : List Rat) (cat : Option String)
    (semantic_weight structural_weight : Rat) (limit : Nat) : List (VDecision × Rat) :=
  let semSet := semanticRows s query_embedding cat limit
  let structSet :=
    match semSet with
    | [] => []
    | (d, _) :: _ => queryFastrpIdx s limit d.fastrp_embedding
  let candidates := (semSet.map (fun p => p.1) ++ structSet.map (fun p => p.1)).eraseDup
  let merged := candidates.map (fun d =>
    (d, lookupScore semSet d * semantic_weight + lookupScore structSet d * structural_weight))
  (List.insertionSort specPairRanked merged).take limit

/-- Componentwise product summed over the common length: the dot product,
which coincides with cosine similarity on unit vectors.  Used to instantiate
the abstract store similarity at concrete counterexample stores. -/
def dot : List Rat → List Rat → Rat
  | a :: as, b :: bs => a * b + dot as bs
  | _, _ => 0

end HybridRetriever

section ConcreteInputs

open CausalGraph DecisionRepo HybridRetriever GDS

/-- Concrete decision A: semantically aligned with the example query vector
and carrying a structural embedding. -/
def decA : VDecision := ⟨1, none, 10, some [1, 0], some [1, 0]⟩

/-- Concrete decision B: semantically orthogonal to the example query
vector, structurally identical to A. -/
def decB : VDecision := ⟨2, none, 20, some [0, 1], some [1, 0]⟩

/-- Concrete store for the hybrid-merge counterexample. -/
def storeAB : VStore := ⟨[decA, decB], dot⟩

/-- Concrete decisions for the tie-break counterexample: equal structural
embeddings, so the two structural matches of the aligned seed tie on the
combined score while their timestamps differ. -/
def decT1 : VDecision := ⟨1, none, 100, some [1, 0], some [1, 0]⟩

/-- Concrete decision with a timestamp between the other two. -/
def decT2 : VDecision := ⟨2, none, 50, some [0, 1], some [1, 0]⟩

/-- Concrete decision with the oldest timestamp. -/
def decT3 : VDecision := ⟨3, none, 5, some [0, 1], some [1, 0]⟩

/-- Concrete store for the tie-break counterexample. -/
def storeTie : VStore := ⟨[decT1, decT2, decT3], dot⟩

/-- Concrete decisions carrying reasoning embeddings but no structural
embedding, the freshly-recorded situation of the semantic-only scenario. -/
def decS1 : VDecision := ⟨1, none, 10, some [1, 0], none⟩

/-- Second semantic-only decision. -/
def decS2 : VDecision := ⟨2, none, 20, some [0, 1], none⟩

/-- Concrete store in which only the semantic index is populated. -/
def storeSemOnly : VStore := ⟨[decS1, decS2], dot⟩

/-- Concrete causal graph with two parallel traversable edges between the
same pair of Decisions, timestamps respecting the invariant. -/
def parallelGraph : CGraph :=
  ⟨[⟨1, 1⟩, ⟨2, 2⟩], [⟨1, 2, .caused⟩, ⟨1, 2, .influenced⟩]⟩

/-- Concrete causal chain A causes B causes C used as traversal witness. -/
def chainGraph : CGraph :=
  ⟨[⟨1, 1⟩, ⟨2, 2⟩, ⟨3, 3⟩], [⟨1, 2, .caused⟩, ⟨2, 3, .caused⟩]⟩

/-- Concrete lifecycle state of a freshly started system whose database
holds no Decision nodes (identity entities only): nothing persisted, no
projection, no communities. -/
def freshNoDecisions : GState := ⟨false, false, false, false, false, false⟩

/-- Concrete lifecycle state of a freshly started system whose database
holds at least one Decision node. -/
def freshWithDecisions : GState := ⟨true, false, false, false, false, false⟩

end ConcreteInputs

/-!
Theorems.  Each claim of the specification review is settled below; helper
lemmas shared between claims come first within each group.
-/

/-- C9: whenever the submitted query text contains one of the mutation
keywords after uppercasing, which is the case for every Cypher mutating
clause, execute_cypher rejects the query with the read-only error before
any store execution: the result is the error value and is independent of
the store oracle, so nothing is partially applied. -/
theorem C9_theorem {ρ : Type} (run1 run2 : String → List ρ) (cypher : String)
    (h : CypherGuard.containsKeyword cypher = true) :
    CypherGuard.execute_cypher run1 cypher = .error "Only read operations are allowed" ∧
      CypherGuard.execute_cypher run1 cypher = CypherGuard.execute_cypher run2 cypher := by
  simp [CypherGuard.execute_cypher, h]

/-- C9 witness: a concrete CREATE statement is rejected without the store
being contacted. -/
theorem C9_witness :
    CypherGuard.execute_cypher (fun _ => ([] : List Unit)) "CREATE (n:Person) RETURN n" =
        .error "Only read operations are allowed" ∧
      CypherGuard.execute_cypher (fun _ => ([] : List Unit)) "CREATE (n:Person) RETURN n" =
        CypherGuard.execute_cypher (fun _ => [()]) "CREATE (n:Person) RETURN n" :=
  C9_theorem (fun _ => ([] : List Unit)) (fun _ => [()]) "CREATE (n:Person) RETURN n" (by decide)

/-- C10: the mutation check over-approximates: purely read-only queries
whose identifiers merely contain a keyword as a substring (a property named
created_at contains CREATE, a property named offset contains SET) are
rejected with the read-only error and never reach the store, while a
read-only query free of the substrings passes through to the store. -/
theorem C10_theorem {ρ : Type} (run1 run2 : String → List ρ) :
    CypherGuard.containsKeyword "MATCH (n) RETURN n.created_at" = true ∧
      CypherGuard.containsKeyword "MATCH (d) RETURN d.offset" = true ∧
      CypherGuard.containsKeyword "MATCH (n) RETURN n" = false ∧
      CypherGuard.execute_cypher run1 "MATCH (n) RETURN n.created_at" =
        .error "Only read operations are allowed" ∧
      CypherGuard.execute_cypher run1 "MATCH (n) RETURN n.created_at" =
        CypherGuard.execute_cypher run2 "MATCH (n) RETURN n.created_at" ∧
      CypherGuard.execute_cypher run1 "MATCH (d) RETURN d.offset" =
        .error "Only read operations are allowed" ∧
      CypherGuard.execute_cypher run1 "MATCH (d) RETURN d.offset" =
        CypherGuard.execute_cypher run2 "MATCH (d) RETURN d.offset" ∧
      CypherGuard.execute_cypher run1 "MATCH (n) RETURN n" =
        .ok (run1 "MATCH (n) RETURN n") := by
  refine ⟨by decide, by decide, by decide, ?_, ?_, ?_, ?_, ?_⟩
  · simp [CypherGuard.execute_cypher, (by decide :
      CypherGuard.containsKeyword "MATCH (n) RETURN n.created_at" = true)]
  · simp [CypherGuard.execute_cypher, (by decide :
      CypherGuard.containsKeyword "MATCH (n) RETURN n.created_at" = true)]
  · simp [CypherGuard.execute_cypher, (by decide :
      CypherGuard.containsKeyword "MATCH (d) RETURN d.offset" = true)]
  · simp [CypherGuard.execute_cypher, (by decide :
      CypherGuard.containsKeyword "MATCH (d) RETURN d.offset" = true)]
  · simp [CypherGuard.execute_cypher, (by decide :
      CypherGuard.containsKeyword "MATCH (n) RETURN n" = false)]

/-- C3 (amended): provided the database holds at least one Decision node,
two consecutive calls of the lifecycle entry point with no intervening
mutation of persisted state trigger at most one FastRP embedding
computation in total, the second call runs zero embedding computations, and
the second call leaves the state unchanged. -/
theorem C3_theorem (s : GDS.GState) (h : s.hasDecision = true) :
    (GDS.ensure_decision_graph_exists s).2 +
        (GDS.ensure_decision_graph_exists (GDS.ensure_decision_graph_exists s).1).2 ≤ 1 ∧
      (GDS.ensure_decision_graph_exists (GDS.ensure_decision_graph_exists s).1).2 = 0 ∧
      (GDS.ensure_decision_graph_exists (GDS.ensure_decision_graph_exists s).1).1 =
        (GDS.ensure_decision_graph_exists s).1 := by
  obtain ⟨hd, de, pe, pwe, ce, lb⟩ := s
  revert h
  cases hd <;> cases de <;> cases pe <;> cases pwe <;> cases ce <;> cases lb <;> decide

/-- C3 witness: the idempotence statement discharged on the concrete fresh
state that holds a Decision node. -/
theorem C3_witness :
    (GDS.ensure_decision_graph_exists freshWithDecisions).2 +
        (GDS.ensure_decision_graph_exists
          (GDS.ensure_decision_graph_exists freshWithDecisions).1).2 ≤ 1 ∧
      (GDS.ensure_decision_graph_exists
        (GDS.ensure_decision_graph_exists freshWithDecisions).1).2 = 0 ∧
      (GDS.ensure_decision_graph_exists
          (GDS.ensure_decision_graph_exists freshWithDecisions).1).1 =
        (GDS.ensure_decision_graph_exists freshWithDecisions).1 :=
  C3_theorem freshWithDecisions rfl

/-- C3 counterexample: on a database with no Decision node the embedding
check never succeeds, so each of two consecutive calls with no intervening
mutation runs a FastRP embedding computation: two computations in total,
and the second call is not a no-op, contradicting the claim. -/
theorem C3_counterexample :
    (GDS.ensure_decision_graph_exists freshNoDecisions).2 = 1 ∧
      (GDS.ensure_decision_graph_exists
        (GDS.ensure_decision_graph_exists freshNoDecisions).1).2 = 1 ∧
      ¬ ((GDS.ensure_decision_graph_exists freshNoDecisions).2 +
          (GDS.ensure_decision_graph_exists
            (GDS.ensure_decision_graph_exists freshNoDecisions).1).2 ≤ 1) := by
  decide

/-- C4 (amended): community computation returns the already-computed status
without any clustering run whenever Community aggregates exist and force is
false; a forced call always executes the full pipeline (drop and recreate
the projection, one Louvain run, write community ids, materialize Community
aggregates, link Decisions); and provided the database holds at least one
Decision node, a second unforced call after a first one returns the
already-computed status with zero clustering runs. -/
theorem C4_theorem (s : GDS.GState) (h : s.hasDecision = true) :
    ((GDS.write_community_ids (GDS.write_community_ids s false).1 false).2.status =
        GDS.CommStatus.alreadyComputed ∧
      (GDS.write_community_ids (GDS.write_community_ids s false).1 false).2.louvainRuns = 0) ∧
      (GDS.write_community_ids s true).2 =
        ⟨GDS.CommStatus.recomputed, 1, true, true, true, true⟩ ∧
      (s.communityExists = true →
        (GDS.write_community_ids s false).2 =
          ⟨GDS.CommStatus.alreadyComputed, 0, false, false, false, false⟩) := by
  obtain ⟨hd, de, pe, pwe, ce, lb⟩ := s
  revert h
  cases hd <;> cases de <;> cases pe <;> cases pwe <;> cases ce <;> cases lb <;> decide

/-- C4 witness: the community-computation statement discharged on the
concrete fresh state that holds a Decision node. -/
theorem C4_witness :
    ((GDS.write_community_ids (GDS.write_community_ids freshWithDecisions false).1
          false).2.status = GDS.CommStatus.alreadyComputed ∧
      (GDS.write_community_ids (GDS.write_community_ids freshWithDecisions false).1
          false).2.louvainRuns = 0) ∧
      (GDS.write_community_ids freshWithDecisions true).2 =
        ⟨GDS.CommStatus.recomputed, 1, true, true, true, true⟩ ∧
      (freshWithDecisions.communityExists = true →
        (GDS.write_community_ids freshWithDecisions false).2 =
          ⟨GDS.CommStatus.alreadyComputed, 0, false, false, false, false⟩) :=
  C4_theorem freshWithDecisions rfl

/-- C4 counterexample: on a database with no Decision node the first
unforced run materializes no Community aggregate, so the second unforced
call does not return the already-computed status but runs clustering again,
contradicting the claim that the second of two unforced calls always
returns already computed. -/
theorem C4_counterexample :
    (GDS.write_community_ids (GDS.write_community_ids freshNoDecisions false).1
        false).2.status ≠ GDS.CommStatus.alreadyComputed ∧
      (GDS.write_community_ids (GDS.write_community_ids freshNoDecisions false).1
        false).2.louvainRuns = 1 := by
  decide

namespace CausalGraph

/-- Appending a node on the right leaves every successful timestamp lookup
unchanged, because lookups return the first matching node. -/
theorem tsOf_nodes_append {ns : List CNode} {es es' : List CEdge} {n : CNode} {i : Nat}
    {t : Int} (h : tsOf ⟨ns, es⟩ i = some t) : tsOf ⟨ns ++ [n], es'⟩ i = some t := by
  unfold tsOf at h ⊢
  rcases Option.map_eq_some'.mp h with ⟨m, hm, hmt⟩
  rw [List.find?_append]
  simp only at hm
  rw [hm]
  simp [hmt]

/-- The edge check only reads the node list of the graph. -/
theorem edgeOk_edges_irrel (ns : List CNode) (es es' : List CEdge) (e : CEdge) :
    edgeOk ⟨ns, es⟩ e = edgeOk ⟨ns, es'⟩ e := rfl

/-- Each choice made by pickOne is an element of the original list, and the
remainder it carries is contained in the original list. -/
theorem pickOne_subset {α : Type} {p : α × List α} :
    ∀ {l : List α}, p ∈ pickOne l → p.1 ∈ l ∧ ∀ x ∈ p.2, x ∈ l := by
  intro l
  induction l generalizing p with
  | nil => intro h; cases h
  | cons a as ih =>
    intro h
    rcases List.mem_cons.mp h with h | h
    · subst h
      exact ⟨List.mem_cons_self _ _, fun x hx => List.mem_cons_of_mem _ hx⟩
    · rcases List.mem_map.mp h with ⟨q, hq, hqe⟩
      rcases ih hq with ⟨h1, h2⟩
      subst hqe
      refine ⟨List.mem_cons_of_mem _ h1, ?_⟩
      intro x hx
      rcases List.mem_cons.mp hx with hx | hx
      · subst hx; exact List.mem_cons_self _ _
      · exact List.mem_cons_of_mem _ (h2 x hx)

/-- Under the invariant, a causal edge of the graph has both timestamps
present and strictly ordered. -/
theorem causalOrdered_edge {g : CGraph} (hinv : causalOrdered g = true) {e : CEdge}
    (he : e ∈ g.edges) (hc : causalType e.rel = true) :
    ∃ t1 t2, tsOf g e.src = some t1 ∧ tsOf g e.dst = some t2 ∧ t1 < t2 := by
  have hok := List.all_eq_true.mp hinv e he
  unfold edgeOk at hok
  rw [hc] at hok
  simp only [Bool.not_true, Bool.false_or] at hok
  revert hok
  cases h1 : tsOf g e.src <;> cases h2 : tsOf g e.dst <;> intro hok
  · cases hok
  · cases hok
  · cases hok
  · exact ⟨_, _, rfl, rfl, of_decide_eq_true hok⟩

/-- Every relationship the tracer walks is causal. -/
theorem traversable_causal {r : RelType} (h : traversable r = true) : causalType r = true := by
  cases r <;> first | rfl | cases h

/-- Every row produced by the backward traversal names a Decision whose
timestamp is strictly below the timestamp of the target, provided the
walked edges belong to a graph satisfying the invariant. -/
theorem trailsInto_lt {g : CGraph} (hinv : causalOrdered g = true) :
    ∀ (depth : Nat) (edges : List CEdge) (target : Nat),
      (∀ e ∈ edges, e ∈ g.edges) →
      ∀ q ∈ trailsInto edges target depth,
        ∃ t1 t2, tsOf g q.1 = some t1 ∧ tsOf g target = some t2 ∧ t1 < t2 := by
  intro depth
  induction depth with
  | zero => intro edges target _ q hq; cases hq
  | succ d ih =>
    intro edges target hsub q hq
    rcases List.mem_flatMap.mp hq with ⟨p, hp, hq⟩
    rcases pickOne_subset hp with ⟨hp1, hp2⟩
    by_cases hcond : p.1.dst = target ∧ traversable p.1.rel = true
    · rw [if_pos hcond] at hq
      have hedge := causalOrdered_edge hinv (hsub _ hp1) (traversable_causal hcond.2)
      rcases hedge with ⟨t1, t2, hsrc, hdst, hlt⟩
      rw [hcond.1] at hdst
      rcases List.mem_cons.mp hq with hq | hq
      · subst hq
        exact ⟨t1, t2, hsrc, hdst, hlt⟩
      · rcases List.mem_map.mp hq with ⟨r, hr, hre⟩
        have hsub2 : ∀ e ∈ p.2, e ∈ g.edges := fun e he => hsub e (hp2 e he)
        rcases ih p.2 p.1.src hsub2 r hr with ⟨a, b, ha, hb, hab⟩
        rw [hsrc] at hb
        subst hre
        exact ⟨a, t2, ha, hdst, lt_trans hab (Option.some.inj hb ▸ hlt)⟩
    · rw [if_neg hcond] at hq
      cases hq

/-- Every row produced by the forward traversal names a Decision whose
timestamp is strictly above the timestamp of the source, provided the
walked edges belong to a graph satisfying the invariant. -/
theorem trailsFrom_lt {g : CGraph} (hinv : causalOrdered g = true) :
    ∀ (depth : Nat) (edges : List CEdge) (source : Nat),
      (∀ e ∈ edges, e ∈ g.edges) →
      ∀ q ∈ trailsFrom edges source depth,
        ∃ t1 t2, tsOf g source = some t1 ∧ tsOf g q.1 = some t2 ∧ t1 < t2 := by
  intro depth
  induction depth with
  | zero => intro edges source _ q hq; cases hq
  | succ d ih =>
    intro edges source hsub q hq
    rcases List.mem_flatMap.mp hq with ⟨p, hp, hq⟩
    rcases pickOne_subset hp with ⟨hp1, hp2⟩
    by_cases hcond : p.1.src = source ∧ traversable p.1.rel = true
    · rw [if_pos hcond] at hq
      have hedge := causalOrdered_edge hinv (hsub _ hp1) (traversable_causal hcond.2)
      rcases hedge with ⟨t1, t2, hsrc, hdst, hlt⟩
      rw [hcond.1] at hsrc
      rcases List.mem_cons.mp hq with hq | hq
      · subst hq
        exact ⟨t1, t2, hsrc, hdst, hlt⟩
      · rcases List.mem_map.mp hq with ⟨r, hr, hre⟩
        have hsub2 : ∀ e ∈ p.2, e ∈ g.edges := fun e he => hsub e (hp2 e he)
        rcases ih p.2 p.1.dst hsub2 r hr with ⟨a, b, ha, hb, hab⟩
        rw [hdst] at ha
        subst hre
        exact ⟨t1, b, hsrc, hb, lt_trans (Option.some.inj ha ▸ hlt) hab⟩
    · rw [if_neg hcond] at hq
      cases hq

/-- Each single write preserves the timestamp invariant: record only adds a
node and non-causal FOLLOWED_PRECEDENT edges, and the guarded causal link
only adds an edge whose endpoints exist with strictly increasing
timestamps. -/
theorem applyOp_preserves (g : CGraph) (op : WriteOp) (hg : causalOrdered g = true) :
    causalOrdered (applyOp g op) = true := by
  cases op with
  | record i ts precs =>
    simp only [applyOp]
    rw [causalOrdered, List.all_eq_true]
    intro e he
    rcases List.mem_append.mp he with he | he
    · have hok := List.all_eq_true.mp hg e he
      rw [edgeOk] at hok ⊢
      cases hc : causalType e.rel
      · simp
      · rw [hc] at hok
        simp only [Bool.not_true, Bool.false_or] at hok ⊢
        revert hok
        cases h1 : tsOf g e.src <;> cases h2 : tsOf g e.dst <;> intro hok
        · cases hok
        · cases hok
        · cases hok
        · rw [tsOf_nodes_append (n := ⟨i, ts⟩) h1, tsOf_nodes_append (n := ⟨i, ts⟩) h2]
          exact hok
    · rcases List.mem_map.mp he with ⟨p, _, hpe⟩
      subst hpe
      rfl
  | causalLink d1 d2 rel =>
    simp only [applyOp]
    split
    · cases h1 : tsOf g d1 <;> cases h2 : tsOf g d2 <;> dsimp only
      · exact hg
      · exact hg
      · exact hg
      · rename_i t1 t2
        by_cases hlt : t1 < t2
        · rw [if_pos hlt, causalOrdered, List.all_append]
          have h1' : List.all g.edges (edgeOk { g with edges := g.edges ++ [⟨d1, d2, rel⟩] }) =
              true := hg
          rw [h1']
          simp only [List.all_cons, List.all_nil, Bool.and_true, Bool.true_and]
          rw [edgeOk]
          rw [show tsOf { g with edges := g.edges ++ [(⟨d1, d2, rel⟩ : CEdge)] }
                (⟨d1, d2, rel⟩ : CEdge).src = tsOf g d1 from rfl,
            show tsOf { g with edges := g.edges ++ [(⟨d1, d2, rel⟩ : CEdge)] }
                (⟨d1, d2, rel⟩ : CEdge).dst = tsOf g d2 from rfl, h1, h2]
          simp [hlt]
        · rw [if_neg hlt]
          exact hg
    · exact hg

end CausalGraph

/-- C5: every store state reachable from an empty database through the
write path (decision recording, which creates only non-causal links, and
the guarded causal-edge creation, which matches both Decisions and merges
the edge only when the source timestamp is strictly below the destination
timestamp) satisfies the invariant that every causal edge goes from an
earlier Decision to a strictly later one: the ordering is enforced by the
writer at edge-creation time, not assumed from the store. -/
theorem C5_theorem (ops : List CausalGraph.WriteOp) :
    CausalGraph.causalOrdered (CausalGraph.runOps ops) = true := by
  suffices h : ∀ g, CausalGraph.causalOrdered g = true →
      CausalGraph.causalOrdered (ops.foldl CausalGraph.applyOp g) = true by
    exact h ⟨[], []⟩ rfl
  induction ops with
  | nil => intro g hg; exact hg
  | cons op ops ih =>
    intro g hg
    exact ih _ (CausalGraph.applyOp_preserves g op hg)

namespace DecisionRepo

/-- A positive existence check names a node of the store with the requested
id. -/
theorem hasNode_exists {st : RStore} {i : Nat} {lab : Label} (h : hasNode st i lab = true) :
    ∃ n ∈ st.nodes, n.id = i := by
  unfold hasNode at h
  rcases List.any_eq_true.mp h with ⟨n, hn, hb⟩
  rw [Bool.and_eq_true] at hb
  exact ⟨n, hn, by simpa using hb.1⟩

/-- Every association edge points from the new Decision to an existing
target of the requested label. -/
theorem mem_linkEdges {st1 : RStore} {decision_id : Nat} {tgt : Option Nat} {lab : Label}
    {rel : RelKind} {e : REdge} (h : e ∈ linkEdges st1 decision_id tgt lab rel) :
    e.src = decision_id ∧ hasNode st1 e.dst lab = true := by
  cases tgt with
  | none => cases h
  | some t =>
    unfold linkEdges at h
    dsimp only at h
    by_cases hex : hasNode st1 t lab = true
    · rw [if_pos hex] at h
      rcases List.mem_singleton.mp h with rfl
      exact ⟨rfl, hex⟩
    · rw [if_neg hex] at h
      cases h

/-- Every precedent edge points from the new Decision to an existing
Decision node. -/
theorem mem_precedentLinkEdges {st1 : RStore} {decision_id : Nat} {precs : List Nat}
    {e : REdge} (h : e ∈ precedentLinkEdges st1 decision_id precs) :
    e.src = decision_id ∧ hasNode st1 e.dst Label.decision = true := by
  unfold precedentLinkEdges at h
  rcases List.mem_map.mp h with ⟨p, hp, hpe⟩
  have := List.of_mem_filter hp
  subst hpe
  exact ⟨rfl, by simpa using this⟩

end DecisionRepo

namespace HybridRetriever

/-- Every row of the semantic index query names a Decision of the store. -/
theorem mem_queryReasoningIdx {s : VStore} {k : Nat} {q : List Rat} {p : VDecision × Rat}
    (h : p ∈ queryReasoningIdx s k q) : p.1 ∈ s.decisions := by
  unfold queryReasoningIdx at h
  have h1 := List.mem_of_mem_take h
  have h2 := (List.mem_insertionSort scoredDesc).mp h1
  rcases List.mem_filterMap.mp h2 with ⟨d, hd, hde⟩
  rcases Option.map_eq_some'.mp hde with ⟨e, _, hpe⟩
  rw [← hpe]
  exact hd

/-- Every row of the semantic stage names a Decision of the store. -/
theorem mem_semanticRows {s : VStore} {qe : List Rat} {cat : Option String} {limit : Nat}
    {p : VDecision × Rat} (h : p ∈ semanticRows s qe cat limit) : p.1 ∈ s.decisions :=
  mem_queryReasoningIdx (List.mem_of_mem_filter h)

/-- When every seed carries a structural embedding the failure path is
unreachable and the checked expansion returns exactly the rows of the
total expansion. -/
theorem expandSeeds_ok {s : VStore} {w1 w2 : Rat} {limit : Nat} :
    ∀ {seeds : List (VDecision × Rat)},
      (∀ sm ∈ seeds, sm.1.fastrp_embedding ≠ none) →
      expandSeeds s w1 w2 limit seeds =
        .ok (seeds.flatMap (fun sm =>
          (queryFastrpIdx s limit sm.1.fastrp_embedding).filterMap (fun st =>
            if st.1 = sm.1 then none
            else some ⟨st.1, sm.2, st.2, sm.2 * w1 + st.2 * w2⟩))) := by
  intro seeds
  induction seeds with
  | nil => intro _; rfl
  | cons sm rest ih =>
    intro h
    have hsm := h sm (List.mem_cons_self _ _)
    cases hv : sm.1.fastrp_embedding with
    | none => exact absurd hv hsm
    | some v =>
      have hrest := ih (fun x hx => h x (List.mem_cons_of_mem _ hx))
      rw [List.flatMap_cons, expandSeeds, hv]
      simp only [queryFastrpIdxChecked]
      rw [hrest]

/-- When every Decision carries a structural embedding the checked second
stage returns exactly the rows of hybridRows. -/
theorem hybridRowsChecked_ok (s : VStore) (qe : List Rat) (cat : Option String)
    (w1 w2 : Rat) (limit : Nat) (h : ∀ d ∈ s.decisions, d.fastrp_embedding ≠ none) :
    hybridRowsChecked s qe cat w1 w2 limit = .ok (hybridRows s qe cat w1 w2 limit) := by
  unfold hybridRowsChecked hybridRows
  exact expandSeeds_ok (fun sm hsm => h sm.1 (mem_semanticRows hsm))

/-- The run model refines the total model: when every Decision carries a
structural embedding a run returns exactly the rows of
find_precedents_hybrid, so the row-shape theorems about the total function
describe every non-failing run. -/
theorem find_precedents_hybrid_run_ok (s : VStore) (qe : List Rat) (cat : Option String)
    (w1 w2 : Rat) (limit : Nat) (h : ∀ d ∈ s.decisions, d.fastrp_embedding ≠ none) :
    find_precedents_hybrid_run s qe cat w1 w2 limit =
      .ok (find_precedents_hybrid s qe cat w1 w2 limit) := by
  unfold find_precedents_hybrid_run find_precedents_hybrid
  rw [hybridRowsChecked_ok s qe cat w1 w2 limit h]

/-- The aggregate maximum of a group is attained by one of its members. -/
theorem maxRat_attained (x : Rat) (l : List Rat) : maxRat x l = x ∨ maxRat x l ∈ l := by
  induction l generalizing x with
  | nil => exact Or.inl rfl
  | cons y ys ih =>
    have e : maxRat x (y :: ys) = maxRat (max x y) ys := rfl
    rcases ih (max x y) with h | h
    · rcases max_choice x y with hm | hm
      · exact Or.inl (by rw [e, h, hm])
      · refine Or.inr ?_
        rw [e, h, hm]
        exact List.mem_cons_self _ _
    · exact Or.inr (List.mem_cons_of_mem _ (e ▸ h))

/-- Every aggregated candidate comes from a row of its group: a row whose
structural match is the candidate and whose combined score equals the
candidate's score (the maximum is attained). -/
theorem mem_groupedRows {rows : List HybridRow} {g : GroupedRow} (h : g ∈ groupedRows rows) :
    ∃ r ∈ rows, r.structural_match = g.decision ∧ r.combined_score = g.score := by
  unfold groupedRows at h
  rcases List.mem_filterMap.mp h with ⟨d, _, hde⟩
  revert hde
  cases hfil : rows.filter (fun r => r.structural_match = d) with
  | nil => intro hde; cases hde
  | cons r rs =>
    intro hde
    have hg := Option.some.inj hde
    have hrmem : r ∈ rows.filter (fun r => r.structural_match = d) := by
      rw [hfil]
      exact List.mem_cons_self _ _
    have hrrows : r ∈ rows := List.mem_of_mem_filter hrmem
    have hrd : r.structural_match = d := by simpa using List.of_mem_filter hrmem
    rcases maxRat_attained r.combined_score (rs.map (fun x => x.combined_score)) with
      hmax | hmax
    · refine ⟨r, hrrows, ?_, ?_⟩
      · rw [hrd, ← hg]
      · rw [← hg]
        exact hmax.symm
    · rcases List.mem_map.mp hmax with ⟨x, hx, hxe⟩
      have hxmem : x ∈ rows.filter (fun r => r.structural_match = d) := by
        rw [hfil]
        exact List.mem_cons_of_mem _ hx
      refine ⟨x, List.mem_of_mem_filter hxmem, ?_, ?_⟩
      · rw [show x.structural_match = d from by simpa using List.of_mem_filter hxmem, ← hg]
      · rw [← hg]
        exact hxe

/-- Every row of the expansion stage pairs one semantic seed with one
structural neighbour of that seed, distinct from the seed, and carries the
weighted combination of the seed's semantic score and the neighbour's
structural score. -/
theorem mem_hybridRows {s : VStore} {qe : List Rat} {cat : Option String} {w1 w2 : Rat}
    {limit : Nat} {r : HybridRow} (h : r ∈ hybridRows s qe cat w1 w2 limit) :
    ∃ sm ∈ semanticRows s qe cat limit,
      ∃ st ∈ queryFastrpIdx s limit sm.1.fastrp_embedding,
        st.1 ≠ sm.1 ∧ r = ⟨st.1, sm.2, st.2, sm.2 * w1 + st.2 * w2⟩ := by
  unfold hybridRows at h
  rcases List.mem_flatMap.mp h with ⟨sm, hsm, hr⟩
  rcases List.mem_filterMap.mp hr with ⟨st, hst, hste⟩
  by_cases hne : st.1 = sm.1
  · rw [if_pos hne] at hste
    cases hste
  · rw [if_neg hne] at hste
    exact ⟨sm, hsm, st, hst, hne, (Option.some.inj hste).symm⟩

end HybridRetriever

/-- C1 (amended): every candidate returned by the hybrid retrieval is a
structural top-K neighbour of some semantic top-2K seed, distinct from that
seed, and its combined score is the seed's semantic score weighted by the
semantic weight plus the candidate's own structural score weighted by the
structural weight; semantic candidates appearing in no seed's structural
neighbourhood are omitted, and no zero-filled merge by identity occurs. -/
theorem C1_theorem (s : HybridRetriever.VStore) (qe : List Rat) (cat : Option String)
    (w1 w2 : Rat) (limit : Nat) (g : HybridRetriever.GroupedRow)
    (hg : g ∈ HybridRetriever.find_precedents_hybrid s qe cat w1 w2 limit) :
    ∃ sm ∈ HybridRetriever.semanticRows s qe cat limit,
      ∃ st ∈ HybridRetriever.queryFastrpIdx s limit sm.1.fastrp_embedding,
        st.1 ≠ sm.1 ∧ st.1 = g.decision ∧ g.score = sm.2 * w1 + st.2 * w2 := by
  unfold HybridRetriever.find_precedents_hybrid at hg
  have h1 := List.mem_of_mem_take hg
  have h2 := (List.mem_insertionSort HybridRetriever.groupedDesc).mp h1
  rcases HybridRetriever.mem_groupedRows h2 with ⟨row, hrow, hmatch, hscore⟩
  rcases HybridRetriever.mem_hybridRows hrow with ⟨sm, hsm, st, hst, hne, hre⟩
  refine ⟨sm, hsm, st, hst, hne, ?_, ?_⟩
  · rw [← hmatch, hre]
  · rw [← hscore, hre]

/-- C1 witness: the characterization discharged on the concrete two-Decision
store, at the top-ranked returned candidate. -/
theorem C1_witness :
    ∃ sm ∈ HybridRetriever.semanticRows storeAB [1, 0] none 5,
      ∃ st ∈ HybridRetriever.queryFastrpIdx storeAB 5 sm.1.fastrp_embedding,
        st.1 ≠ sm.1 ∧
          st.1 = (⟨decB, 1, 1, 1⟩ : HybridRetriever.GroupedRow).decision ∧
          (⟨decB, 1, 1, 1⟩ : HybridRetriever.GroupedRow).score = sm.2 * (3/5) + st.2 * (2/5) :=
  C1_theorem storeAB [1, 0] none (3/5) (2/5) 5 ⟨decB, 1, 1, 1⟩ (by decide)

/-- C1 counterexample: on a two-Decision store the code assigns the
candidates the semantic score of their seed, not their own semantic
sub-score, so the returned scores are exactly swapped with respect to the
zero-filled merge the claim describes: the code ranks Decision 2 first with
score 1, while the merge of the claim ranks Decision 1 first with score 1
and gives Decision 2 the score 2/5. -/
theorem C1_counterexample :
    (HybridRetriever.find_precedents_hybrid storeAB [1, 0] none (3/5) (2/5) 5).map
        (fun g => (g.decision.id, g.score)) = [(2, 1), (1, 2/5)] ∧
      (HybridRetriever.spec_hybrid_merge storeAB [1, 0] none (3/5) (2/5) 5).map
        (fun p => (p.1.id, p.2)) = [(1, 1), (2, 2/5)] := by
  decide

/-- C7 (amended): when no Decision of the store carries a structural
embedding and the semantic stage yields at least one seed, the run raises
the store's null-query-vector error, because the structural-index CALL
receives the seed's missing fastrp_embedding; the retrieval neither falls
back to the semantic-only ranking nor scores the missing embeddings as a
zero structural term. -/
theorem C7_theorem (s : HybridRetriever.VStore) (qe : List Rat) (cat : Option String)
    (w1 w2 : Rat) (limit : Nat)
    (h : ∀ d ∈ s.decisions, d.fastrp_embedding = none)
    (hne : HybridRetriever.semanticRows s qe cat limit ≠ []) :
    HybridRetriever.find_precedents_hybrid_run s qe cat w1 w2 limit =
      .error HybridRetriever.nullVectorError := by
  unfold HybridRetriever.find_precedents_hybrid_run HybridRetriever.hybridRowsChecked
  cases hsem : HybridRetriever.semanticRows s qe cat limit with
  | nil => exact absurd hsem hne
  | cons sm rest =>
    have hmem : sm ∈ HybridRetriever.semanticRows s qe cat limit := by
      rw [hsem]
      exact List.mem_cons_self _ _
    have hnone := h sm.1 (HybridRetriever.mem_semanticRows hmem)
    rw [HybridRetriever.expandSeeds, hnone]
    rfl

/-- C7 witness: the raised store error discharged on the concrete store
whose Decisions carry reasoning embeddings only, where the semantic stage
is nonempty. -/
theorem C7_witness :
    (∀ d ∈ storeSemOnly.decisions, d.fastrp_embedding = none) ∧
      HybridRetriever.semanticRows storeSemOnly [1, 0] none 5 ≠ [] ∧
      HybridRetriever.find_precedents_hybrid_run storeSemOnly [1, 0] none (3/5) (2/5) 5 =
        .error HybridRetriever.nullVectorError :=
  ⟨by decide, by decide,
    C7_theorem storeSemOnly [1, 0] none (3/5) (2/5) 5 (by decide) (by decide)⟩

/-- C7 counterexample: with only the semantic index populated the run
raises the store's null-query-vector error although the semantic-only
search ranks two Decisions, so neither the no-error part of the claim nor
the claimed fallback to the pure semantic order holds. -/
theorem C7_counterexample :
    HybridRetriever.find_precedents_hybrid_run storeSemOnly [1, 0] none (3/5) (2/5) 5 =
        .error HybridRetriever.nullVectorError ∧
      (HybridRetriever.search_decisions_semantic storeSemOnly [1, 0] none 5).map
        (fun p => p.1.id) = [1, 2] :=
  ⟨rfl, by decide⟩

/-- C8 (amended): the returned list is sorted by descending combined score
and truncated to at most limit entries; the query orders by the combined
score only, so no timestamp tie-break is applied. -/
theorem C8_theorem (s : HybridRetriever.VStore) (qe : List Rat) (cat : Option String)
    (w1 w2 : Rat) (limit : Nat) :
    (HybridRetriever.find_precedents_hybrid s qe cat w1 w2 limit).length ≤ limit ∧
      List.Sorted HybridRetriever.groupedDesc
        (HybridRetriever.find_precedents_hybrid s qe cat w1 w2 limit) := by
  unfold HybridRetriever.find_precedents_hybrid
  constructor
  · exact List.length_take_le _ _
  · exact List.Pairwise.sublist (List.take_sublist _ _)
      (List.sorted_insertionSort HybridRetriever.groupedDesc _)

/-- C8 counterexample: on a three-Decision store two returned candidates tie
on the combined score but appear with the older timestamp first, so the
result is not sorted by the claimed order (descending score with ties
broken by the most recent timestamp first). -/
theorem C8_counterexample :
    (HybridRetriever.find_precedents_hybrid storeTie [1, 0] none (3/5) (2/5) 5).map
        (fun g => (g.decision.id, g.score, g.decision.decision_timestamp)) =
      [(3, 1, 5), (2, 1, 50), (1, 2/5, 100)] ∧
      ¬ List.Sorted HybridRetriever.specRanked
        (HybridRetriever.find_precedents_hybrid storeTie [1, 0] none (3/5) (2/5) 5) := by
  decide

namespace CausalGraph

/-- Every id listed by the causes component of a traced chain arises from a
backward trail of the graph. -/
theorem mem_causes_trails {g : CGraph} {id depth : Nat} {direction : String} {i : Nat}
    (hi : i ∈ ((get_causal_chain g id direction depth).causes.map Prod.fst)) :
    ∃ q ∈ trailsInto g.edges id depth, q.1 = i := by
  simp only [get_causal_chain] at hi
  by_cases hc : (nodeExists g id && (direction == "both" || direction == "causes")) = true
  · rw [if_pos hc] at hi
    rcases List.mem_map.mp hi with ⟨q, hq, hqe⟩
    exact ⟨q, (List.mem_insertionSort byDistance).mp hq, hqe⟩
  · rw [if_neg hc] at hi
    simp at hi

/-- Every id listed by the effects component of a traced chain arises from
a forward trail of the graph. -/
theorem mem_effects_trails {g : CGraph} {id depth : Nat} {direction : String} {i : Nat}
    (hi : i ∈ ((get_causal_chain g id direction depth).effects.map Prod.fst)) :
    ∃ q ∈ trailsFrom g.edges id depth, q.1 = i := by
  simp only [get_causal_chain] at hi
  by_cases hc : (nodeExists g id && (direction == "both" || direction == "effects")) = true
  · rw [if_pos hc] at hi
    rcases List.mem_map.mp hi with ⟨q, hq, hqe⟩
    exact ⟨q, (List.mem_insertionSort byDistance).mp hq, hqe⟩
  · rw [if_neg hc] at hi
    simp at hi

end CausalGraph

/-- C2 (amended): tracing with direction both runs exactly the same two
traversal queries as tracing causes and tracing effects at the same depth,
so its causes list and effects list coincide with theirs, and under the
timestamp invariant no Decision appears both as a cause and as an effect;
however a Decision reached by several distinct causal paths occurs once per
path within a direction, so the union is free of cross-direction
duplicates only. -/
theorem C2_theorem (g : CausalGraph.CGraph) (id depth : Nat)
    (hinv : CausalGraph.causalOrdered g = true) :
    (CausalGraph.get_causal_chain g id "both" depth).causes =
        (CausalGraph.get_causal_chain g id "causes" depth).causes ∧
      (CausalGraph.get_causal_chain g id "both" depth).effects =
        (CausalGraph.get_causal_chain g id "effects" depth).effects ∧
      ∀ i ∈ ((CausalGraph.get_causal_chain g id "both" depth).causes.map Prod.fst),
        i ∉ ((CausalGraph.get_causal_chain g id "both" depth).effects.map Prod.fst) := by
  refine ⟨?_, ?_, ?_⟩
  · simp [CausalGraph.get_causal_chain]
  · simp [CausalGraph.get_causal_chain]
  · intro i hi hie
    rcases CausalGraph.mem_causes_trails hi with ⟨q, hq, hqi⟩
    rcases CausalGraph.mem_effects_trails hie with ⟨r, hr, hri⟩
    rcases CausalGraph.trailsInto_lt hinv depth g.edges id (fun _ he => he) q hq with
      ⟨a, b, ha, hb, hab⟩
    rcases CausalGraph.trailsFrom_lt hinv depth g.edges id (fun _ he => he) r hr with
      ⟨a2, b2, ha2, hb2, hab2⟩
    rw [hqi] at ha
    rw [hri] at hb2
    have hb' := Option.some.inj (ha2.symm.trans hb)
    have ha' := Option.some.inj (hb2.symm.trans ha)
    rw [hb', ha'] at hab2
    exact absurd hab (lt_asymm hab2)

/-- C2 counterexample: a graph with two parallel causal relationships
between the same two Decisions satisfies the timestamp invariant, yet
tracing direction both at depth one lists the causing Decision twice (once
per path), so the returned union contains a duplicate Decision,
contradicting the no-duplicates part of the claim. -/
theorem C2_counterexample :
    CausalGraph.causalOrdered parallelGraph = true ∧
      (CausalGraph.get_causal_chain parallelGraph 2 "both" 1).causes = [(1, 1), (1, 1)] ∧
      ¬ (((CausalGraph.get_causal_chain parallelGraph 2 "both" 1).causes ++
            (CausalGraph.get_causal_chain parallelGraph 2 "both" 1).effects).map
          Prod.fst).Nodup := by
  decide

/-- C2 witness: the amended statement discharged on the concrete chain
graph, whose invariant holds by evaluation. -/
theorem C2_witness :
    (CausalGraph.get_causal_chain chainGraph 2 "both" 2).causes =
        (CausalGraph.get_causal_chain chainGraph 2 "causes" 2).causes ∧
      (CausalGraph.get_causal_chain chainGraph 2 "both" 2).effects =
        (CausalGraph.get_causal_chain chainGraph 2 "effects" 2).effects ∧
      ∀ i ∈ ((CausalGraph.get_causal_chain chainGraph 2 "both" 2).causes.map Prod.fst),
        i ∉ ((CausalGraph.get_causal_chain chainGraph 2 "both" 2).effects.map Prod.fst) :=
  C2_theorem chainGraph 2 2 (by decide)

/-- C6: record_decision creates the Decision node first and returns the
generated identifier unconditionally; every association edge it adds goes
out of the new Decision and only exists when its target node is present in
the store, so no edge is ever left dangling and a missing target simply
yields no edge rather than an error. -/
theorem C6_theorem (st : DecisionRepo.RStore) (decision_id : Nat)
    (customer_id account_id transaction_id : Option Nat) (precedent_ids : List Nat) :
    (DecisionRepo.record_decision st decision_id customer_id account_id transaction_id
        precedent_ids).2 = decision_id ∧
      (⟨decision_id, .decision⟩ : DecisionRepo.RNode) ∈
        (DecisionRepo.record_decision st decision_id customer_id account_id transaction_id
          precedent_ids).1.nodes ∧
      ∀ e ∈ (DecisionRepo.record_decision st decision_id customer_id account_id transaction_id
          precedent_ids).1.edges,
        e ∈ st.edges ∨
          (e.src = decision_id ∧
            ∃ n ∈ (DecisionRepo.record_decision st decision_id customer_id account_id
                transaction_id precedent_ids).1.nodes, n.id = e.dst) := by
  refine ⟨rfl, ?_, ?_⟩
  · show (⟨decision_id, .decision⟩ : DecisionRepo.RNode) ∈
      st.nodes ++ [⟨decision_id, .decision⟩]
    exact List.mem_append_right _ (List.mem_singleton.mpr rfl)
  · intro e he
    have he' : e ∈ st.edges ++
        DecisionRepo.linkEdges
          ⟨st.nodes ++ [⟨decision_id, .decision⟩], st.edges⟩ decision_id customer_id .person
          .about ++
        DecisionRepo.linkEdges
          ⟨st.nodes ++ [⟨decision_id, .decision⟩], st.edges⟩ decision_id account_id .account
          .about ++
        DecisionRepo.linkEdges
          ⟨st.nodes ++ [⟨decision_id, .decision⟩], st.edges⟩ decision_id transaction_id
          .transaction .about ++
        DecisionRepo.precedentLinkEdges
          ⟨st.nodes ++ [⟨decision_id, .decision⟩], st.edges⟩ decision_id precedent_ids := he
    have target : ∀ {lab : DecisionRepo.Label},
        DecisionRepo.hasNode ⟨st.nodes ++ [⟨decision_id, .decision⟩], st.edges⟩ e.dst lab =
          true →
        e.src = decision_id →
        e ∈ st.edges ∨
          (e.src = decision_id ∧
            ∃ n ∈ (DecisionRepo.record_decision st decision_id customer_id account_id
                transaction_id precedent_ids).1.nodes, n.id = e.dst) := by
      intro lab hex hsrc
      rcases DecisionRepo.hasNode_exists hex with ⟨n, hn, hni⟩
      exact Or.inr ⟨hsrc, ⟨n, hn, hni⟩⟩
    rcases List.mem_append.mp he' with he' | hp
    rcases List.mem_append.mp he' with he' | hp
    rcases List.mem_append.mp he' with he' | hp
    rcases List.mem_append.mp he' with he' | hp
    · exact Or.inl he'
    · rcases DecisionRepo.mem_linkEdges hp with ⟨hsrc, hex⟩
      exact target hex hsrc
    · rcases DecisionRepo.mem_linkEdges hp with ⟨hsrc, hex⟩
      exact target hex hsrc
    · rcases DecisionRepo.mem_linkEdges hp with ⟨hsrc, hex⟩
      exact target hex hsrc
    · rcases DecisionRepo.mem_precedentLinkEdges hp with ⟨hsrc, hex⟩
      exact target hex hsrc
